import Mathlib

/-! Shallow embedding of the Catalogue-of-Life species extractor
    (source files api3.py, api2.py, api.py, download.py) together with
    proofs about its persistence, filtering, enrichment, paging and
    traversal logic.  Python dictionaries are modelled as ordered
    association lists, remote API calls as oracle functions passed in
    as parameters, Python exceptions (`KeyError`, `AttributeError`,
    `sys.exit`) as explicit error results, and the unbounded `while`
    loop of `traverse_genra` as a fuel-indexed loop. -/

/-- Python `dict` lookup (`d.get(k)` / first matching key of an ordered
    association list). -/
def dlookup {α : Type} : List (String × α) → String → Option α
  | [], _ => none
  | (k', v') :: rest, k => if k' = k then some v' else dlookup rest k

/-- Python `d[k] = v`: update an existing key in place (keeping its
    position), else append a new entry at the end. -/
def dinsert {α : Type} : List (String × α) → String → α → List (String × α)
  | [], k, v => [(k, v)]
  | (k', v') :: rest, k, v =>
    if k' = k then (k, v) :: rest else (k', v') :: dinsert rest k v

theorem dlookup_dinsert_self {α : Type} (d : List (String × α)) (k : String) (v : α) :
    dlookup (dinsert d k v) k = some v := by
  induction d with
  | nil => simp [dinsert, dlookup]
  | cons p rest ih =>
    by_cases h : p.1 = k
    · simp [dinsert, dlookup, h]
    · simp [dinsert, dlookup, h, ih]

theorem dlookup_dinsert_ne {α : Type} (d : List (String × α)) (k k' : String) (v : α)
    (h : k' ≠ k) : dlookup (dinsert d k v) k' = dlookup d k' := by
  have hk : ¬(k = k') := fun hh => h hh.symm
  induction d with
  | nil => simp [dinsert, dlookup, hk]
  | cons p rest ih =>
    by_cases hp : p.1 = k
    · have hp' : ¬(p.1 = k') := by rw [hp]; exact hk
      simp [dinsert, dlookup, hp, hp', hk]
    · simp only [dinsert, hp, if_false]
      by_cases hp' : p.1 = k'
      · simp [dlookup, hp']
      · simp [dlookup, hp', ih]

theorem dlookup_none_iff {α : Type} (d : List (String × α)) (k : String) :
    dlookup d k = none ↔ ∀ p ∈ d, p.1 ≠ k := by
  induction d with
  | nil => simp [dlookup]
  | cons p rest ih =>
    by_cases hp : p.1 = k
    · simp [dlookup, hp]
    · simp [dlookup, hp, ih]

theorem dlookup_isSome_dinsert {α : Type} (d : List (String × α)) (k k' : String) (v : α)
    (h : (dlookup d k').isSome = true) : (dlookup (dinsert d k v) k').isSome = true := by
  by_cases hk : k' = k
  · subst hk; simp [dlookup_dinsert_self]
  · rwa [dlookup_dinsert_ne d k k' v hk]

/-- A value stored in one of the Python record dictionaries: an int,
    a string, or Python `None`. -/
inductive Val where
  | vint (n : Int)
  | vstr (s : String)
  | vnone
  deriving DecidableEq, Repr

/-- Coercion of an optional string (result of `.get(...)`) into a stored
    value: Python stores `None` as-is. -/
def valOfOpt : Option String → Val
  | some s => .vstr s
  | none => .vnone

/-- Python `'%s' % v` rendering of a stored value. -/
def pyStr : Val → String
  | .vint n => toString n
  | .vstr s => s
  | .vnone => "None"

/-- A species-record dictionary (Python dict with string keys and
    mixed-type values). -/
abbrev VDict := List (String × Val)

/-- A lineage / path dictionary accumulated during traversal
    (rank name → taxon name, all string-valued). -/
abbrev SDict := List (String × String)

/-- One element of the list returned by the vernacular-names endpoint:
    `{'language': ..., 'name': ...}`, each field possibly absent
    (`.get` returns `None`). -/
structure VernEntry where
  language : Option String
  name : Option String
  deriving DecidableEq, Repr

/-- One element of a children page returned by
    `dataset/{id}/tree/{genus}/children` (fields used by the scripts). -/
structure SpecRec where
  id : Nat
  name : String
  rank : String
  authorship : String
  deriving DecidableEq, Repr

/-- Python exceptions and exits arising in the scripts, plus the
    fuel-exhaustion marker of the loop model. -/
inductive PyErr where
  | keyError
  | attrError
  | sysExit
  | fuelOut
  deriving DecidableEq, Repr

/-- The hard-coded order deny-list of `taxonomy_rank_is_included`
    (api3.py lines 114-124). -/
def ORDER_EXCLUDED : List String :=
  ["Amblypygi", "Araneae", "Holothyrida", "Opilioacarida", "Opiliones",
   "Palpigradi", "Sarcoptiformes", "Trombidiformes"]

/-- api3.py `taxonomy_rank_is_included`, parameterised by the three
    module-level allow-lists it reads (`DOMAIN_INCLUDED`,
    `KINGDOM_INCLUDED`, `PHYLUM_INCLUDED`). -/
def taxonomy_rank_is_included (dom king phyl : List String) (rank name : String) : Bool :=
  if rank = "domain" then dom.contains name
  else if rank = "kingdom" then king.contains name
  else if rank = "phylum" then phyl.contains name
  else if rank = "order" then !(ORDER_EXCLUDED.contains name)
  else true

/-- api3.py `DOMAIN_INCLUDED` (only uncommented entries). -/
def DOMAIN_INCLUDED : List String := ["Eukaryota"]

/-- api3.py `KINGDOM_INCLUDED` (only uncommented entries). -/
def KINGDOM_INCLUDED : List String := ["Animalia", "Plantae"]

/-- api3.py `PHYLUM_INCLUDED`.  The Python source is missing the commas
    after `'Orthonectida'`, `'Phoronida'`, `'Placozoa'` and `'Porifera'`,
    so Python's implicit adjacent-string-literal concatenation turns the
    five animal phyla from `Orthonectida` through `Priapulida` into the
    single element below. -/
def PHYLUM_INCLUDED : List String :=
  ["Arthropoda", "Brachiopoda", "Bryozoa", "Chordata", "Cnidaria",
   "Ctenophora", "Cycliophora", "Echinodermata", "Entoprocta",
   "Kinorhyncha", "Mollusca",
   "OrthonectidaPhoronidaPlacozoaPoriferaPriapulida",
   "Anthocerotophyta", "Bryophyta", "Marchantiophyta", "Tracheophyta",
   "Charophyta", "Chlorophyta", "Glaucophyta", "Rhodophyta"]

/-- The function `taxonomy_rank_is_included` applied to the concrete
    configuration of api3.py's main block. -/
def isIncludedA3 (rank name : String) : Bool :=
  taxonomy_rank_is_included DOMAIN_INCLUDED KINGDOM_INCLUDED PHYLUM_INCLUDED rank name

/-- The vernacular-name loop of api3.py `save_species` (lines 143-147):
    for each entry, if its language code is in the allow-list, assign
    `species['vernacular_<language>'] = entry.get('name')`.  A later
    entry for the same language overwrites the earlier assignment. -/
def add_vernacular_names (langs : List String) (entries : List VernEntry) (d : VDict) : VDict :=
  entries.foldl (fun d e =>
    match e.language with
    | some l => if l ∈ langs then dinsert d ("vernacular_" ++ l) (valOfOpt e.name) else d
    | none => d) d

/-- The dict comprehension plus `species.update(path)` steps of api3.py
    `save_species` (lines 135-137): keep only `id`, `name`, `authorship`
    and merge the lineage entries in. -/
def species_base (sp : SpecRec) (path : SDict) : VDict :=
  path.foldl (fun d p => dinsert d p.1 (.vstr p.2))
    [("id", .vint sp.id), ("name", .vstr sp.name), ("authorship", .vstr sp.authorship)]

/-- The row dictionary built by api3.py `save_species` before writing:
    the species fields restricted to `id`/`name`/`authorship`, updated
    with the lineage `path`, then with the allow-listed vernacular
    names (skipped when the endpoint returned `None`; looping over an
    empty list is a no-op, matching the falsy check in the source). -/
def species_row (vern : Nat → Option (List VernEntry)) (langs : List String)
    (sp : SpecRec) (path : SDict) : VDict :=
  match vern sp.id with
  | some entries => add_vernacular_names langs entries (species_base sp path)
  | none => species_base sp path

/-- api3.py `save_species` (lines 127-154).  `vern` is the
    `get_species_vernacular_names` endpoint (`none` = failed request),
    `langs` the `LANGUAGES_INCLUDED` allow-list, `path` the lineage dict.
    Returns the file-name suffix `'<class>_<order>'` together with the
    row dictionary, or `keyError` when the unguarded `species['class']` /
    `species['order']` indexing fails. -/
def save_species (vern : Nat → Option (List VernEntry)) (langs : List String)
    (sp : SpecRec) (path : SDict) : Except PyErr (String × VDict) :=
  match dlookup (species_row vern langs sp path) "class" with
  | none => .error .keyError
  | some cv =>
    match dlookup (species_row vern langs sp path) "order" with
    | none => .error .keyError
    | some ov => .ok (pyStr cv ++ "_" ++ pyStr ov, species_row vern langs sp path)

/-- api3.py `write_species_to_file` (lines 45-59): the table is the CSV
    file content; a new row is appended only when the `species` column
    is absent from the table or the record's `species` value is not yet
    among that column's values. -/
def write_species_to_file (data : VDict) (t : List VDict) : List VDict :=
  if (∀ r ∈ t, (dlookup r "species").isSome = false)
      ∨ dlookup data "species" ∉ t.map (fun r => dlookup r "species") then
    t ++ [data]
  else t

/-- One row of the polars table written by download.py
    `write_vernacular_name_to_file`: the `col_id` key plus one
    (nullable) column per allow-listed language. -/
structure VRow where
  colId : String
  vern : List (String × Option String)
  deriving DecidableEq, Repr

/-- The polars `with_columns(when(col_id == cid).then(lit(v)).otherwise(col))`
    update: set column `c` to `some v` (applied to a single row). -/
def set_lang_column (vern : List (String × Option String)) (c v : String) :
    List (String × Option String) :=
  vern.map fun p => if p.1 = c then (p.1, some v) else p

/-- download.py `write_vernacular_name_to_file` (lines 33-69).  The
    caller (lines 226-240) always passes a dict of exactly
    `{'col_id': cid, 'vernacular_names_<lang>': nm}`, modelled here as
    the triple `(cid, lang, nm)`; `langs` is `LANGUAGES_INCLUDED`.
    If `cid` already occurs in the `col_id` column, the name for that
    language is appended to the current one with `', '` whenever the
    current value is non-null, and the column is updated in place for
    the matching rows; otherwise a fresh row is appended. -/
def write_vernacular_name_to_file (langs : List String) (cid lang nm : String)
    (t : List VRow) : List VRow :=
  let col := "vernacular_names_" ++ lang
  if t.any (fun r => r.colId == cid) then
    let current : Option String :=
      match t.find? (fun r => r.colId == cid) with
      | some row => (dlookup row.vern col).join
      | none => none
    let newName :=
      match current with
      | some cur => cur ++ ", " ++ nm
      | none => nm
    t.map fun r =>
      if r.colId = cid then { r with vern := set_lang_column r.vern col newName } else r
  else
    t ++ [⟨cid, langs.map fun l => ("vernacular_names_" ++ l, if l = lang then some nm else none)⟩]

theorem vern_key_inj (l l' : String)
    (h : ("vernacular_" ++ l : String) = "vernacular_" ++ l') : l = l' := by
  obtain ⟨ld⟩ := l
  obtain ⟨ld'⟩ := l'
  have hd := congrArg String.data h
  simp [String.data_append] at hd
  exact congrArg String.mk hd

theorem class_ne_vern_key (l : String) : ("class" : String) ≠ "vernacular_" ++ l := by
  intro h
  have h5 : ("class" : String).length = 5 := rfl
  have h11 : ("vernacular_" : String).length = 11 := rfl
  have hl := congrArg String.length h
  rw [String.length_append, h5, h11] at hl
  omega

theorem order_ne_vern_key (l : String) : ("order" : String) ≠ "vernacular_" ++ l := by
  intro h
  have h5 : ("order" : String).length = 5 := rfl
  have h11 : ("vernacular_" : String).length = 11 := rfl
  have hl := congrArg String.length h
  rw [String.length_append, h5, h11] at hl
  omega

/-- The vernacular loop only touches keys of the form
    `vernacular_<language>`; any other key keeps its value. -/
theorem dlookup_add_vernacular_of_ne (langs : List String) (entries : List VernEntry)
    (d : VDict) (k : String) (hk : ∀ l : String, k ≠ "vernacular_" ++ l) :
    dlookup (add_vernacular_names langs entries d) k = dlookup d k := by
  induction entries generalizing d with
  | nil => rfl
  | cons e rest ih =>
    show dlookup (add_vernacular_names langs rest
      (match e.language with
       | some l => if l ∈ langs then dinsert d ("vernacular_" ++ l) (valOfOpt e.name) else d
       | none => d)) k = dlookup d k
    cases hl : e.language with
    | none => exact ih d
    | some l =>
      by_cases hmem : l ∈ langs
      · simp only [hmem, if_pos]
        rw [ih (dinsert d ("vernacular_" ++ l) (valOfOpt e.name))]
        exact dlookup_dinsert_ne d _ _ _ (hk l)
      · simp only [hmem, if_neg, not_false_iff]
        exact ih d

/-- Folding the lineage into the row dict leaves keys that do not occur
    in the lineage untouched. -/
theorem dlookup_pathFold_of_absent (path : SDict) (d : VDict) (k : String)
    (h : ∀ p ∈ path, p.1 ≠ k) :
    dlookup (path.foldl (fun d p => dinsert d p.1 (.vstr p.2)) d) k = dlookup d k := by
  induction path generalizing d with
  | nil => rfl
  | cons p rest ih =>
    simp only [List.foldl_cons]
    rw [ih _ (fun q hq => h q (List.mem_cons_of_mem p hq))]
    exact dlookup_dinsert_ne d p.1 k (.vstr p.2) (fun hh => h p (List.mem_cons_self p rest) hh.symm)

theorem dlookup_pathFold_keeps_isSome (path : SDict) (d : VDict) (k : String)
    (h : (dlookup d k).isSome = true) :
    (dlookup (path.foldl (fun d p => dinsert d p.1 (.vstr p.2)) d) k).isSome = true := by
  induction path generalizing d with
  | nil => exact h
  | cons p rest ih =>
    simp only [List.foldl_cons]
    exact ih _ (dlookup_isSome_dinsert d p.1 k (.vstr p.2) h)

/-- If the lineage contains some entry for key `k`, the folded row dict
    has a value for `k`. -/
theorem dlookup_pathFold_isSome_of_mem (path : SDict) (d : VDict) (k : String)
    (h : dlookup path k ≠ none) :
    (dlookup (path.foldl (fun d p => dinsert d p.1 (.vstr p.2)) d) k).isSome = true := by
  induction path generalizing d with
  | nil => simp [dlookup] at h
  | cons p rest ih =>
    simp only [List.foldl_cons]
    by_cases hp : p.1 = k
    · subst hp
      exact dlookup_pathFold_keeps_isSome rest _ p.1
        (by rw [dlookup_dinsert_self]; rfl)
    · refine ih _ ?_
      simpa [dlookup, hp] using h

/-- C6 (confirmed): `taxonomy_rank_is_included` returns allow-list
    membership for domain/kingdom/phylum, deny-list non-membership for
    order, and `true` for every other rank; in particular, with phylum
    allow-list `{Arthropoda, Chordata}` (and with the script's actual
    configuration) `Arthropoda` is included and `Rotifera` is not, and
    with the script's order deny-list `Araneae` is excluded while
    `Coleoptera` is included. -/
theorem c6_rank_filter :
    (∀ dom king phyl name,
      taxonomy_rank_is_included dom king phyl "domain" name = dom.contains name ∧
      taxonomy_rank_is_included dom king phyl "kingdom" name = king.contains name ∧
      taxonomy_rank_is_included dom king phyl "phylum" name = phyl.contains name ∧
      taxonomy_rank_is_included dom king phyl "order" name = !(ORDER_EXCLUDED.contains name)) ∧
    (∀ dom king phyl rank name,
      rank ≠ "domain" → rank ≠ "kingdom" → rank ≠ "phylum" → rank ≠ "order" →
      taxonomy_rank_is_included dom king phyl rank name = true) ∧
    taxonomy_rank_is_included DOMAIN_INCLUDED KINGDOM_INCLUDED ["Arthropoda", "Chordata"]
      "phylum" "Arthropoda" = true ∧
    taxonomy_rank_is_included DOMAIN_INCLUDED KINGDOM_INCLUDED ["Arthropoda", "Chordata"]
      "phylum" "Rotifera" = false ∧
    isIncludedA3 "phylum" "Arthropoda" = true ∧
    isIncludedA3 "phylum" "Rotifera" = false ∧
    isIncludedA3 "order" "Araneae" = false ∧
    isIncludedA3 "order" "Coleoptera" = true := by
  refine ⟨?_, ?_, by decide, by decide, by decide, by decide, by decide, by decide⟩
  · intro dom king phyl name
    refine ⟨?_, ?_, ?_, ?_⟩ <;> simp [taxonomy_rank_is_included]
  · intro dom king phyl rank name h1 h2 h3 h4
    simp [taxonomy_rank_is_included, h1, h2, h3, h4]

/-- Witness for C6 at a rank with no configured list. -/
theorem c6_rank_filter_witness :
    ("class" : String) ≠ "domain" ∧
    taxonomy_rank_is_included [] [] [] "class" "Felidae" = true :=
  ⟨by decide,
   c6_rank_filter.2.1 [] [] [] "class" "Felidae" (by decide) (by decide) (by decide) (by decide)⟩

/-- C7 counterexample: two allow-listed English vernacular entries
    `Cat` then `Housecat` for the same species produce
    `vernacular_eng = "Housecat"` (the later entry overwrites the
    earlier), not the claimed concatenation `"Cat, Housecat"`. -/
theorem c7_counterexample :
    save_species (fun _ => some [⟨some "eng", some "Cat"⟩, ⟨some "eng", some "Housecat"⟩])
        ["eng"] ⟨7, "Felis catus", "species", "L."⟩
        [("class", "Mammalia"), ("order", "Carnivora")]
      = .ok ("Mammalia_Carnivora",
          [("id", .vint 7), ("name", .vstr "Felis catus"), ("authorship", .vstr "L."),
           ("class", .vstr "Mammalia"), ("order", .vstr "Carnivora"),
           ("vernacular_eng", .vstr "Housecat")]) ∧
    Val.vstr "Housecat" ≠ Val.vstr "Cat, Housecat" :=
  ⟨rfl, by decide⟩

/-- C7 (amended): the enricher retains exactly the entries whose
    language is allow-listed — a language outside the allow-list leaves
    its field untouched — but when several retained entries share a
    language the LAST entry's name wins (each later assignment
    overwrites the earlier one; no `", "` concatenation). -/
theorem c7_amended :
    (∀ (langs : List String) (entries : List VernEntry) (d : VDict) (l : String),
      l ∉ langs →
      dlookup (add_vernacular_names langs entries d) ("vernacular_" ++ l)
        = dlookup d ("vernacular_" ++ l)) ∧
    (∀ (langs : List String) (entries : List VernEntry) (d : VDict) (l : String)
      (nm : Option String),
      l ∈ langs →
      dlookup (add_vernacular_names langs (entries ++ [⟨some l, nm⟩]) d) ("vernacular_" ++ l)
        = some (valOfOpt nm)) := by
  constructor
  · intro langs entries d l hl
    induction entries generalizing d with
    | nil => rfl
    | cons e rest ih =>
      show dlookup (add_vernacular_names langs rest
        (match e.language with
         | some l' => if l' ∈ langs then dinsert d ("vernacular_" ++ l') (valOfOpt e.name) else d
         | none => d)) ("vernacular_" ++ l) = dlookup d ("vernacular_" ++ l)
      cases he : e.language with
      | none => exact ih d
      | some l' =>
        by_cases hmem : l' ∈ langs
        · simp only [hmem, if_pos]
          rw [ih (dinsert d ("vernacular_" ++ l') (valOfOpt e.name))]
          refine dlookup_dinsert_ne d _ _ _ (fun hh => ?_)
          exact hl (vern_key_inj l l' hh ▸ hmem)
        · simp only [hmem, if_neg, not_false_iff]
          exact ih d
  · intro langs entries d l nm hl
    unfold add_vernacular_names
    rw [List.foldl_append]
    show dlookup (if l ∈ langs then
        dinsert (add_vernacular_names langs entries d) ("vernacular_" ++ l) (valOfOpt nm)
      else add_vernacular_names langs entries d) ("vernacular_" ++ l) = some (valOfOpt nm)
    rw [if_pos hl]
    exact dlookup_dinsert_self _ _ _

/-- Witness for C7's amended statement. -/
theorem c7_witness :
    ("eng" : String) ∈ (["eng"] : List String) ∧
    dlookup (add_vernacular_names ["eng"]
        ([⟨some "eng", some "Cat"⟩] ++ [⟨some "eng", some "Housecat"⟩]) [])
        ("vernacular_" ++ "eng")
      = some (valOfOpt (some "Housecat")) :=
  ⟨by decide, c7_amended.2 ["eng"] [⟨some "eng", some "Cat"⟩] [] "eng" (some "Housecat") (by decide)⟩

/-- C10 (confirmed): deriving the bucket key via unguarded
    `species['class']` / `species['order']` indexing means that a
    species reached through a lineage missing the `class` or the
    `order` entry makes `save_species` raise `KeyError` instead of
    writing a row. -/
theorem c10_missing_rank_keyerror (vern : Nat → Option (List VernEntry))
    (langs : List String) (sp : SpecRec) (path : SDict)
    (h : dlookup path "class" = none ∨ dlookup path "order" = none) :
    save_species vern langs sp path = .error .keyError := by
  have hrow_class : dlookup (species_row vern langs sp path) "class"
      = dlookup (species_base sp path) "class" := by
    unfold species_row
    cases vern sp.id with
    | none => rfl
    | some es => exact dlookup_add_vernacular_of_ne langs es _ "class" class_ne_vern_key
  have hrow_order : dlookup (species_row vern langs sp path) "order"
      = dlookup (species_base sp path) "order" := by
    unfold species_row
    cases vern sp.id with
    | none => rfl
    | some es => exact dlookup_add_vernacular_of_ne langs es _ "order" order_ne_vern_key
  by_cases hc : dlookup path "class" = none
  · have hbase : dlookup (species_base sp path) "class" = none := by
      unfold species_base
      rw [dlookup_pathFold_of_absent path _ "class" ((dlookup_none_iff path "class").1 hc)]
      rfl
    unfold save_species
    rw [hrow_class, hbase]
  · have ho : dlookup path "order" = none := h.resolve_left hc
    have hsome : (dlookup (species_base sp path) "class").isSome = true := by
      unfold species_base
      exact dlookup_pathFold_isSome_of_mem path _ "class" hc
    obtain ⟨cv, hcv⟩ := Option.isSome_iff_exists.1 hsome
    have hbase_o : dlookup (species_base sp path) "order" = none := by
      unfold species_base
      rw [dlookup_pathFold_of_absent path _ "order" ((dlookup_none_iff path "order").1 ho)]
      rfl
    unfold save_species
    rw [hrow_class, hcv, hrow_order, hbase_o]

/-- Witness for C10: a lineage that jumped from kingdom straight to
    genus (no `class` entry) makes the persist step fail. -/
theorem c10_witness :
    dlookup [("domain", "Eukaryota"), ("kingdom", "Animalia"), ("genus", "Felis")] "class"
      = none ∧
    save_species (fun _ => none) ["eng"] ⟨7, "Felis catus", "species", "L."⟩
        [("domain", "Eukaryota"), ("kingdom", "Animalia"), ("genus", "Felis")]
      = .error .keyError :=
  ⟨by decide,
   c10_missing_rank_keyerror (fun _ => none) ["eng"] ⟨7, "Felis catus", "species", "L."⟩
     [("domain", "Eukaryota"), ("kingdom", "Animalia"), ("genus", "Felis")]
     (Or.inl (by decide))⟩

/-- The record `{species: 7, vernacular_eng: "Cat"}` of the spec's
    append-merge example, keyed by the writer's `species` column. -/
def catRecord : VDict := [("species", .vint 7), ("vernacular_eng", .vstr "Cat")]

/-- The record `{species: 7, vernacular_eng: "Housecat"}`. -/
def housecatRecord : VDict := [("species", .vint 7), ("vernacular_eng", .vstr "Housecat")]

/-- C1 counterexample: persisting the `Cat` record and then the
    `Housecat` record with the same key through the API variant's
    `write_species_to_file` yields a single row whose `vernacular_eng`
    is still `"Cat"` — the second record is dropped entirely, nothing
    is appended with `", "`. -/
theorem c1_counterexample :
    write_species_to_file housecatRecord (write_species_to_file catRecord []) = [catRecord] ∧
    dlookup catRecord "vernacular_eng" = some (.vstr "Cat") ∧
    Val.vstr "Cat" ≠ Val.vstr "Cat, Housecat" := by
  refine ⟨by decide, by decide, by decide⟩

/-- C1 (amended): persisting key 7 with `Cat` then with `Housecat`
    yields a single row either way, but only the bulk variant's
    vernacular writer appends with `", "` (giving `"Cat, Housecat"`);
    the API variant's species writer keeps the first value `"Cat"` and
    discards the second record. -/
theorem c1_amended :
    write_vernacular_name_to_file ["eng"] "7" "eng" "Housecat"
        (write_vernacular_name_to_file ["eng"] "7" "eng" "Cat" [])
      = [⟨"7", [("vernacular_names_eng", some "Cat, Housecat")]⟩] ∧
    write_species_to_file housecatRecord (write_species_to_file catRecord []) = [catRecord] ∧
    dlookup catRecord "vernacular_eng" = some (.vstr "Cat") := by
  refine ⟨by decide, by decide, by decide⟩

/-- C2 counterexample: persisting the identical vernacular record
    (`col_id` 7, English name `Cat`) twice through the bulk variant's
    writer keeps one row but duplicates the vernacular-name string,
    producing `"Cat, Cat"`. -/
theorem c2_counterexample :
    write_vernacular_name_to_file ["eng"] "7" "eng" "Cat"
        (write_vernacular_name_to_file ["eng"] "7" "eng" "Cat" [])
      = [⟨"7", [("vernacular_names_eng", some "Cat, Cat")]⟩] ∧
    some "Cat, Cat" ≠ some "Cat" := by
  refine ⟨by decide, by decide⟩

/-- C2 (amended): persisting the same record twice never duplicates the
    row; the API variant's species writer is idempotent for every record
    that carries the `species` key column, but the bulk variant's
    vernacular writer appends the identical name again (`"Cat, Cat"`). -/
theorem c2_amended :
    (∀ (data : VDict) (t : List VDict), (dlookup data "species").isSome = true →
      write_species_to_file data (write_species_to_file data t)
        = write_species_to_file data t) ∧
    write_vernacular_name_to_file ["eng"] "7" "eng" "Cat"
        (write_vernacular_name_to_file ["eng"] "7" "eng" "Cat" [])
      = [⟨"7", [("vernacular_names_eng", some "Cat, Cat")]⟩] := by
  constructor
  · intro data t hv
    by_cases hc : (∀ r ∈ t, (dlookup r "species").isSome = false)
        ∨ dlookup data "species" ∉ t.map (fun r => dlookup r "species")
    · have h1 : write_species_to_file data t = t ++ [data] := by
        unfold write_species_to_file; rw [if_pos hc]
      rw [h1]
      unfold write_species_to_file
      rw [if_neg]
      rintro (hA | hB)
      · have hd := hA data (by simp)
        rw [hv] at hd
        exact absurd hd (by simp)
      · exact hB (List.mem_map_of_mem _ (by simp))
    · have h1 : write_species_to_file data t = t := by
        unfold write_species_to_file; rw [if_neg hc]
      rw [h1]
      exact h1
  · decide

/-- Witness for C2's amended statement. -/
theorem c2_witness :
    (dlookup catRecord "species").isSome = true ∧
    write_species_to_file catRecord (write_species_to_file catRecord [])
      = write_species_to_file catRecord [] :=
  ⟨by decide, c2_amended.1 catRecord [] (by decide)⟩

/-- Result of one `get_species_by_genus` call as seen by the caller:
    `none` = `execute_api_request` returned `None` (transport failure or
    non-2xx response, api3.py lines 41-43), `some none` = a JSON dict
    without a `result` key, `some (some l)` = the `result` list. -/
abbrev Fetch := Nat → Nat → Option (Option (List SpecRec))

def exceptOk {ε α : Type} : Except ε α → Bool
  | .ok _ => true
  | .error _ => false

def exceptValue {ε α : Type} : Except ε α → Option α
  | .ok a => some a
  | .error _ => none

/-- Running state of the `traverse_genra` while-loop:
    `species_count_total_retrieved`, `offset`, plus logs of every
    children-fetch issued (taxon id, offset) and every row written. -/
structure GState where
  retrieved : Nat
  offset : Nat
  calls : List (Nat × Nat)
  saves : List (String × VDict)
  deriving DecidableEq, Repr

/-- Outcome of the whole loop: normal completion or a raised
    exception / exhausted fuel, with the state reached. -/
inductive GRes where
  | done (s : GState)
  | failed (e : PyErr) (s : GState)
  deriving DecidableEq, Repr

/-- Outcome of one loop iteration: `break`, continue, or raise. -/
inductive StepRes where
  | brk (s : GState)
  | cont (s : GState)
  | failed (e : PyErr) (s : GState)
  deriving DecidableEq, Repr

/-- The subgenus expansion loop of api3.py `traverse_genra` (lines
    176-181): one further children-fetch per element of the page, at the
    same current offset.  `None.get('result')` raises `AttributeError`
    when `execute_api_request` returned `None`; a response without a
    `result` key yields `None`, which the `is not None` guard skips.
    Returns the concatenated results and the fetch calls issued (on
    error: the calls made up to and including the failing one). -/
def expandSub (fetch : Fetch) (off : Nat) :
    List SpecRec → Except (PyErr × List (Nat × Nat)) (List SpecRec × List (Nat × Nat))
  | [] => .ok ([], [])
  | sg :: rest =>
    match fetch sg.id off with
    | none => .error (.attrError, [(sg.id, off)])
    | some r2 =>
      match expandSub fetch off rest with
      | .ok (l, cs) => .ok (r2.getD [] ++ l, (sg.id, off) :: cs)
      | .error (e, cs) => .error (e, (sg.id, off) :: cs)

/-- The per-page save loop of api3.py `traverse_genra` (lines 188-189):
    `save_species` on each record, stopping at the first raised error
    and keeping the rows already written. -/
def saveAll (vern : Nat → Option (List VernEntry)) (langs : List String) (path : SDict) :
    List SpecRec → Except (PyErr × List (String × VDict)) (List (String × VDict))
  | [] => .ok []
  | sp :: rest =>
    match save_species vern langs sp path with
    | .error e => .error (e, [])
    | .ok ev =>
      match saveAll vern langs path rest with
      | .ok evs => .ok (ev :: evs)
      | .error (e, evs) => .error (e, ev :: evs)

/-- One iteration of the `traverse_genra` while-loop body (api3.py lines
    168-189): fetch the page at the current offset (where
    `None.get('result')` raises `AttributeError`), break on a falsy
    page, expand a subgenus page (rank of the first element decides),
    bump the counters (`retrieved += len(page)`, `offset += limit` with
    `limit = 1000`), then save every record of the (possibly expanded)
    page. -/
def genraStep (fetch : Fetch) (vern : Nat → Option (List VernEntry)) (langs : List String)
    (genusId : Nat) (path : SDict) (s : GState) : StepRes :=
  match fetch genusId s.offset with
  | none => .failed .attrError ⟨s.retrieved, s.offset, s.calls ++ [(genusId, s.offset)], s.saves⟩
  | some resp =>
    match resp.getD [] with
    | [] => .brk ⟨s.retrieved, s.offset, s.calls ++ [(genusId, s.offset)], s.saves⟩
    | h :: t =>
      match (if h.rank = "species" then Except.ok (h :: t, ([] : List (Nat × Nat)))
             else expandSub fetch s.offset (h :: t)) with
      | .error (e, cs) =>
        .failed e ⟨s.retrieved, s.offset, (s.calls ++ [(genusId, s.offset)]) ++ cs, s.saves⟩
      | .ok (page, cs) =>
        match saveAll vern langs path page with
        | .ok evs =>
          .cont ⟨s.retrieved + page.length, s.offset + 1000,
                 (s.calls ++ [(genusId, s.offset)]) ++ cs, s.saves ++ evs⟩
        | .error (e, evs) =>
          .failed e ⟨s.retrieved + page.length, s.offset + 1000,
                     (s.calls ++ [(genusId, s.offset)]) ++ cs, s.saves ++ evs⟩

/-- The `while species_count_total_retrieved < species_count_total`
    loop of api3.py `traverse_genra` (line 167), indexed by fuel since
    the source loop need not terminate. -/
def genraLoop (fetch : Fetch) (vern : Nat → Option (List VernEntry)) (langs : List String)
    (genusId total : Nat) (path : SDict) : Nat → GState → GRes
  | 0, s => if s.retrieved < total then .failed .fuelOut s else .done s
  | fuel + 1, s =>
    if s.retrieved < total then
      match genraStep fetch vern langs genusId path s with
      | .brk s' => .done s'
      | .failed e s' => .failed e s'
      | .cont s' => genraLoop fetch vern langs genusId total path fuel s'
    else .done s

/-- api3.py `traverse_genra` (lines 156-189): counters start at zero,
    page size 1000, offset 0. -/
def traverse_genra (fetch : Fetch) (vern : Nat → Option (List VernEntry)) (langs : List String)
    (fuel genusId total : Nat) (path : SDict) : GRes :=
  genraLoop fetch vern langs genusId total path fuel ⟨0, 0, [], []⟩

def isFuelOut : GRes → Bool
  | .failed .fuelOut _ => true
  | _ => false

def retrievedOf : GRes → Nat
  | .done s => s.retrieved
  | .failed _ s => s.retrieved

/-- The concatenation of the expansion results for a subgenus page
    (what `species_by_subgenus` holds after the loop when every
    expansion fetch succeeds). -/
def expResults (fetch : Fetch) (off : Nat) : List SpecRec → List SpecRec
  | [] => []
  | sg :: rest => ((fetch sg.id off).getD none).getD [] ++ expResults fetch off rest

/-- A source for which the genus's own page is a single subgenus element
    and every other children-fetch returns an empty result list: every
    expansion is empty and the loop makes no progress. -/
def advFetch : Fetch := fun g _ =>
  if g = 0 then some (some [⟨1, "SubgX", "subgenus", ""⟩]) else some (some [])

/-- A vernacular-names endpoint that always fails (returns `None`). -/
def vernNone : Nat → Option (List VernEntry) := fun _ => none

/-- A source whose every request fails at transport level. -/
def failFetch : Fetch := fun _ _ => none

/-- A source for which the genus children fetch succeeds with a subgenus
    page but the expansion fetch fails at transport level. -/
def failSubFetch : Fetch := fun g _ =>
  if g = 0 then some (some [⟨1, "SubgX", "subgenus", ""⟩]) else none

theorem expandSub_ok (fetch : Fetch) (off : Nat) (l : List SpecRec)
    (h : ∀ sg ∈ l, (fetch sg.id off).isSome = true) :
    expandSub fetch off l = .ok (expResults fetch off l, l.map fun sg => (sg.id, off)) := by
  induction l with
  | nil => rfl
  | cons sg rest ih =>
    obtain ⟨r2, hr2⟩ := Option.isSome_iff_exists.1 (h sg (List.mem_cons_self sg rest))
    have ihh := ih (fun x hx => h x (List.mem_cons_of_mem sg hx))
    simp [expandSub, hr2, ihh, expResults]

theorem saveAll_ok (vern : Nat → Option (List VernEntry)) (langs : List String) (path : SDict)
    (l : List SpecRec)
    (h : ∀ sp ∈ l, exceptOk (save_species vern langs sp path) = true) :
    saveAll vern langs path l
      = .ok (l.filterMap fun sp => exceptValue (save_species vern langs sp path)) := by
  induction l with
  | nil => rfl
  | cons sp rest ih =>
    have hsp := h sp (List.mem_cons_self sp rest)
    cases hs : save_species vern langs sp path with
    | error e => rw [hs] at hsp; simp [exceptOk] at hsp
    | ok ev =>
      have ihh := ih (fun x hx => h x (List.mem_cons_of_mem sp hx))
      simp [saveAll, hs, ihh, exceptValue, List.filterMap_cons]

theorem save_species_error_key (vern : Nat → Option (List VernEntry)) (langs : List String)
    (sp : SpecRec) (path : SDict) (e : PyErr)
    (h : save_species vern langs sp path = .error e) : e = .keyError := by
  unfold save_species at h
  cases hc : dlookup (species_row vern langs sp path) "class" with
  | none => rw [hc] at h; injection h with h1; exact h1.symm
  | some cv =>
    rw [hc] at h
    cases ho : dlookup (species_row vern langs sp path) "order" with
    | none => rw [ho] at h; injection h with h1; exact h1.symm
    | some ov => rw [ho] at h; simp at h

theorem expandSub_error_attr (fetch : Fetch) (off : Nat) (l : List SpecRec) :
    ∀ e cs, expandSub fetch off l = .error (e, cs) → e = .attrError := by
  induction l with
  | nil => intro e cs h; simp [expandSub] at h
  | cons sg rest ih =>
    intro e cs h
    unfold expandSub at h
    cases hf : fetch sg.id off with
    | none =>
      rw [hf] at h
      injection h with h1
      exact (congrArg Prod.fst h1).symm
    | some r2 =>
      rw [hf] at h
      cases hrest : expandSub fetch off rest with
      | ok pr => rw [hrest] at h; simp at h
      | error pr =>
        obtain ⟨e', cs'⟩ := pr
        rw [hrest] at h
        injection h with h1
        have h2 : e' = e := congrArg Prod.fst h1
        exact h2 ▸ ih e' cs' hrest

theorem saveAll_error_key (vern : Nat → Option (List VernEntry)) (langs : List String)
    (path : SDict) (l : List SpecRec) :
    ∀ e evs, saveAll vern langs path l = .error (e, evs) → e = .keyError := by
  induction l with
  | nil => intro e evs h; simp [saveAll] at h
  | cons sp rest ih =>
    intro e evs h
    unfold saveAll at h
    cases hs : save_species vern langs sp path with
    | error e0 =>
      rw [hs] at h
      injection h with h1
      have h2 : e0 = e := congrArg Prod.fst h1
      exact h2 ▸ save_species_error_key vern langs sp path e0 hs
    | ok ev =>
      rw [hs] at h
      cases hrest : saveAll vern langs path rest with
      | ok evs' => rw [hrest] at h; simp at h
      | error pr =>
        obtain ⟨e', evs'⟩ := pr
        rw [hrest] at h
        injection h with h1
        have h2 : e' = e := congrArg Prod.fst h1
        exact h2 ▸ ih e' evs' hrest

theorem genraStep_no_fuelOut (fetch : Fetch) (vern : Nat → Option (List VernEntry))
    (langs : List String) (genusId : Nat) (path : SDict) (s s' : GState) :
    genraStep fetch vern langs genusId path s ≠ .failed .fuelOut s' := by
  intro h
  unfold genraStep at h
  cases hf : fetch genusId s.offset with
  | none =>
    rw [hf] at h
    simp only [] at h
    injection h with h1 h2
    exact PyErr.noConfusion h1
  | some resp =>
    rw [hf] at h
    simp only [] at h
    cases hp : resp.getD [] with
    | nil => rw [hp] at h; simp at h
    | cons hd tl =>
      rw [hp] at h
      simp only [] at h
      cases hex : (if hd.rank = "species" then Except.ok (hd :: tl, ([] : List (Nat × Nat)))
                   else expandSub fetch s.offset (hd :: tl)) with
      | error pr =>
        obtain ⟨e, cs⟩ := pr
        rw [hex] at h
        simp only [] at h
        injection h with h1 h2
        by_cases hr : hd.rank = "species"
        · rw [if_pos hr] at hex; simp at hex
        · rw [if_neg hr] at hex
          have := expandSub_error_attr fetch s.offset (hd :: tl) e cs hex
          rw [h1] at this
          exact PyErr.noConfusion this
      | ok pr =>
        obtain ⟨page, cs⟩ := pr
        rw [hex] at h
        simp only [] at h
        cases hsa : saveAll vern langs path page with
        | ok evs => rw [hsa] at h; simp at h
        | error pr2 =>
          obtain ⟨e, evs⟩ := pr2
          rw [hsa] at h
          simp only [] at h
          injection h with h1 h2
          have := saveAll_error_key vern langs path page e evs hsa
          rw [h1] at this
          exact PyErr.noConfusion this

theorem genraStep_cont_state (fetch : Fetch) (vern : Nat → Option (List VernEntry))
    (langs : List String) (genusId : Nat) (path : SDict) (s s' : GState)
    (h : genraStep fetch vern langs genusId path s = .cont s') :
    s'.offset = s.offset + 1000 ∧ s.retrieved ≤ s'.retrieved := by
  unfold genraStep at h
  cases hf : fetch genusId s.offset with
  | none => rw [hf] at h; simp at h
  | some resp =>
    rw [hf] at h
    simp only [] at h
    cases hp : resp.getD [] with
    | nil => rw [hp] at h; simp at h
    | cons hd tl =>
      rw [hp] at h
      simp only [] at h
      cases hex : (if hd.rank = "species" then Except.ok (hd :: tl, ([] : List (Nat × Nat)))
                   else expandSub fetch s.offset (hd :: tl)) with
      | error pr => obtain ⟨e, cs⟩ := pr; rw [hex] at h; simp at h
      | ok pr =>
        obtain ⟨page, cs⟩ := pr
        rw [hex] at h
        simp only [] at h
        cases hsa : saveAll vern langs path page with
        | error pr2 => obtain ⟨e, evs⟩ := pr2; rw [hsa] at h; simp at h
        | ok evs =>
          rw [hsa] at h
          simp only [] at h
          injection h with h1
          rw [← h1]
          exact ⟨rfl, Nat.le_add_right _ _⟩

theorem genraStep_cont_progress (fetch : Fetch) (vern : Nat → Option (List VernEntry))
    (langs : List String) (genusId : Nat) (path : SDict) (s s' : GState)
    (hsp : ∀ gid off l, fetch gid off = some (some l) → ∀ hh, l.head? = some hh →
      hh.rank = "species")
    (h : genraStep fetch vern langs genusId path s = .cont s') :
    s.retrieved + 1 ≤ s'.retrieved := by
  unfold genraStep at h
  cases hf : fetch genusId s.offset with
  | none => rw [hf] at h; simp at h
  | some resp =>
    rw [hf] at h
    simp only [] at h
    cases hp : resp.getD [] with
    | nil => rw [hp] at h; simp at h
    | cons hd tl =>
      rw [hp] at h
      simp only [] at h
      have hresp : resp = some (hd :: tl) := by
        cases resp with
        | none => simp at hp
        | some l => simp at hp; rw [hp]
      have hrank : hd.rank = "species" :=
        hsp genusId s.offset (hd :: tl) (hresp ▸ hf) hd rfl
      rw [if_pos hrank] at h
      simp only [] at h
      cases hsa : saveAll vern langs path (hd :: tl) with
      | error pr2 => obtain ⟨e, evs⟩ := pr2; rw [hsa] at h; simp at h
      | ok evs =>
        rw [hsa] at h
        simp only [] at h
        injection h with h1
        rw [← h1]
        simp

theorem genraLoop_succ_cont (fetch : Fetch) (vern : Nat → Option (List VernEntry))
    (langs : List String) (genusId total : Nat) (path : SDict) (fuel : Nat) (s s' : GState)
    (hguard : s.retrieved < total)
    (hstep : genraStep fetch vern langs genusId path s = .cont s') :
    genraLoop fetch vern langs genusId total path (fuel + 1) s
      = genraLoop fetch vern langs genusId total path fuel s' := by
  conv_lhs => unfold genraLoop
  rw [if_pos hguard, hstep]

theorem genraLoop_succ_brk (fetch : Fetch) (vern : Nat → Option (List VernEntry))
    (langs : List String) (genusId total : Nat) (path : SDict) (fuel : Nat) (s s' : GState)
    (hguard : s.retrieved < total)
    (hstep : genraStep fetch vern langs genusId path s = .brk s') :
    genraLoop fetch vern langs genusId total path (fuel + 1) s = .done s' := by
  conv_lhs => unfold genraLoop
  rw [if_pos hguard, hstep]

theorem genraLoop_succ_failed (fetch : Fetch) (vern : Nat → Option (List VernEntry))
    (langs : List String) (genusId total : Nat) (path : SDict) (fuel : Nat) (s s' : GState)
    (e : PyErr) (hguard : s.retrieved < total)
    (hstep : genraStep fetch vern langs genusId path s = .failed e s') :
    genraLoop fetch vern langs genusId total path (fuel + 1) s = .failed e s' := by
  conv_lhs => unfold genraLoop
  rw [if_pos hguard, hstep]

theorem genraLoop_done (fetch : Fetch) (vern : Nat → Option (List VernEntry))
    (langs : List String) (genusId total : Nat) (path : SDict) (fuel : Nat) (s : GState)
    (h : ¬s.retrieved < total) :
    genraLoop fetch vern langs genusId total path fuel s = .done s := by
  cases fuel with
  | zero => unfold genraLoop; rw [if_neg h]
  | succ fuel => unfold genraLoop; rw [if_neg h]

/-- C4 (confirmed): when a fetched genus page is a subgenus page (its
    first element's rank is not `species`) and all requests succeed, the
    loop iteration issues exactly one additional children-fetch per
    element of the page (recorded in `calls`, one `(sg.id, offset)` pair
    per element after the page fetch itself), and the rows saved are
    exactly those built from the concatenated expansion results — no row
    comes from an element of the subgenus page itself. -/
theorem c4_subgenus_expansion (fetch : Fetch) (vern : Nat → Option (List VernEntry))
    (langs : List String) (genusId : Nat) (path : SDict) (s : GState)
    (h : SpecRec) (t : List SpecRec)
    (hfetch : fetch genusId s.offset = some (some (h :: t)))
    (hrank : h.rank ≠ "species")
    (hexp : ∀ sg ∈ h :: t, (fetch sg.id s.offset).isSome = true)
    (hsave : ∀ sp ∈ expResults fetch s.offset (h :: t),
      exceptOk (save_species vern langs sp path) = true) :
    genraStep fetch vern langs genusId path s
      = .cont ⟨s.retrieved + (expResults fetch s.offset (h :: t)).length,
               s.offset + 1000,
               (s.calls ++ [(genusId, s.offset)]) ++ (h :: t).map (fun sg => (sg.id, s.offset)),
               s.saves ++ (expResults fetch s.offset (h :: t)).filterMap
                 (fun sp => exceptValue (save_species vern langs sp path))⟩ := by
  unfold genraStep
  rw [hfetch]
  simp only [Option.getD_some]
  rw [if_neg hrank]
  rw [expandSub_ok fetch s.offset (h :: t) hexp]
  simp only []
  rw [saveAll_ok vern langs path (expResults fetch s.offset (h :: t)) hsave]

/-- Concrete source for the C4 witness: genus 10 expands into two
    subgenera 11 and 12, each holding one species. -/
def fetchSubgenus : Fetch := fun g off =>
  if g = 10 ∧ off = 0 then
    some (some [⟨11, "SubA", "subgenus", ""⟩, ⟨12, "SubB", "subgenus", ""⟩])
  else if g = 11 then some (some [⟨101, "Sp1", "species", "L."⟩])
  else if g = 12 then some (some [⟨102, "Sp2", "species", "L."⟩])
  else some (some [])

/-- Witness for C4 on the concrete two-subgenus source. -/
theorem c4_witness :
    fetchSubgenus 10 0
      = some (some [⟨11, "SubA", "subgenus", ""⟩, ⟨12, "SubB", "subgenus", ""⟩]) ∧
    genraStep fetchSubgenus vernNone ["eng"] 10 [("class", "Mammalia"), ("order", "Carnivora")]
        ⟨0, 0, [], []⟩
      = .cont ⟨0 + (expResults fetchSubgenus 0
                 [⟨11, "SubA", "subgenus", ""⟩, ⟨12, "SubB", "subgenus", ""⟩]).length,
               0 + 1000,
               ([] ++ [(10, 0)])
                 ++ ([⟨11, "SubA", "subgenus", ""⟩, ⟨12, "SubB", "subgenus", ""⟩] : List SpecRec).map
                   (fun sg => (sg.id, 0)),
               [] ++ (expResults fetchSubgenus 0
                 [⟨11, "SubA", "subgenus", ""⟩, ⟨12, "SubB", "subgenus", ""⟩]).filterMap
                 (fun sp => exceptValue (save_species vernNone ["eng"] sp
                   [("class", "Mammalia"), ("order", "Carnivora")]))⟩ :=
  ⟨rfl,
   c4_subgenus_expansion fetchSubgenus vernNone ["eng"] 10
     [("class", "Mammalia"), ("order", "Carnivora")] ⟨0, 0, [], []⟩
     ⟨11, "SubA", "subgenus", ""⟩ [⟨12, "SubB", "subgenus", ""⟩]
     rfl (by decide) (by decide) (by decide)⟩

/-- A source that always answers with an empty result list. -/
def fetchEmptyPage : Fetch := fun _ _ => some (some [])

/-- C5 (amended): the paging loop starts at offset 0 and counters 0,
    increments the offset by the page size 1000 on every continuing
    iteration, stops as soon as the retrieved count reaches
    `expected_total` or a fetched page is empty; with
    `expected_total = 0` it issues zero source calls; and when every
    fetched page is a page of species the loop terminates within
    `expected_total` iterations — but a source that keeps answering
    non-empty subgenus pages whose expansions are all empty makes the
    retrieved count stay put and the loop run forever. -/
theorem c5_amended :
    (∀ (fetch : Fetch) (vern : Nat → Option (List VernEntry)) (langs : List String)
      (fuel g : Nat) (path : SDict),
      traverse_genra fetch vern langs fuel g 0 path = .done ⟨0, 0, [], []⟩) ∧
    (∀ (fetch : Fetch) (vern : Nat → Option (List VernEntry)) (langs : List String)
      (g total : Nat) (path : SDict) (fuel : Nat) (s : GState), total ≤ s.retrieved →
      genraLoop fetch vern langs g total path fuel s = .done s) ∧
    (∀ (fetch : Fetch) (vern : Nat → Option (List VernEntry)) (langs : List String)
      (g : Nat) (path : SDict) (s s' : GState),
      genraStep fetch vern langs g path s = .cont s' → s'.offset = s.offset + 1000) ∧
    (∀ (fetch : Fetch) (vern : Nat → Option (List VernEntry)) (langs : List String)
      (g : Nat) (path : SDict) (s : GState), fetch g s.offset = some (some []) →
      genraStep fetch vern langs g path s
        = .brk ⟨s.retrieved, s.offset, s.calls ++ [(g, s.offset)], s.saves⟩) ∧
    (∀ (fetch : Fetch) (vern : Nat → Option (List VernEntry)) (langs : List String)
      (g total : Nat) (path : SDict),
      (∀ gid off l, fetch gid off = some (some l) → ∀ hh, l.head? = some hh →
        hh.rank = "species") →
      ∀ (fuel : Nat) (s : GState), total ≤ s.retrieved + fuel →
        isFuelOut (genraLoop fetch vern langs g total path fuel s) = false) ∧
    (∀ (fuel off : Nat) (calls : List (Nat × Nat)) (saves : List (String × VDict)),
      isFuelOut (genraLoop advFetch vernNone ["eng"] 0 1 [] fuel ⟨0, off, calls, saves⟩)
        = true) := by
  refine ⟨?_, ?_, ?_, ?_, ?_, ?_⟩
  · intro fetch vern langs fuel g path
    exact genraLoop_done fetch vern langs g 0 path fuel ⟨0, 0, [], []⟩ (by simp)
  · intro fetch vern langs g total path fuel s h
    exact genraLoop_done fetch vern langs g total path fuel s (Nat.not_lt.2 h)
  · intro fetch vern langs g path s s' h
    exact (genraStep_cont_state fetch vern langs g path s s' h).1
  · intro fetch vern langs g path s hf
    unfold genraStep
    rw [hf]
    rfl
  · intro fetch vern langs g total path hsp fuel
    induction fuel with
    | zero =>
      intro s hb
      rw [genraLoop_done fetch vern langs g total path 0 s (by omega)]
      rfl
    | succ fuel ih =>
      intro s hb
      by_cases hg : s.retrieved < total
      · cases hstep : genraStep fetch vern langs g path s with
        | brk s' =>
          rw [genraLoop_succ_brk fetch vern langs g total path fuel s s' hg hstep]
          rfl
        | failed e s' =>
          rw [genraLoop_succ_failed fetch vern langs g total path fuel s s' e hg hstep]
          cases e with
          | fuelOut => exact absurd hstep (genraStep_no_fuelOut fetch vern langs g path s s')
          | keyError => rfl
          | attrError => rfl
          | sysExit => rfl
        | cont s' =>
          rw [genraLoop_succ_cont fetch vern langs g total path fuel s s' hg hstep]
          refine ih s' ?_
          have := genraStep_cont_progress fetch vern langs g path s s' hsp hstep
          omega
      · rw [genraLoop_done fetch vern langs g total path (fuel + 1) s hg]
        rfl
  · intro fuel
    induction fuel with
    | zero => intro off calls saves; rfl
    | succ fuel ih =>
      intro off calls saves
      have hstep : genraStep advFetch vernNone ["eng"] 0 [] ⟨0, off, calls, saves⟩
          = .cont ⟨0, off + 1000, (calls ++ [(0, off)]) ++ [(1, off)], saves ++ []⟩ := rfl
      rw [genraLoop_succ_cont advFetch vernNone ["eng"] 0 1 [] fuel
        ⟨0, off, calls, saves⟩ ⟨0, off + 1000, (calls ++ [(0, off)]) ++ [(1, off)], saves ++ []⟩
        Nat.zero_lt_one hstep]
      exact ih (off + 1000) ((calls ++ [(0, off)]) ++ [(1, off)]) (saves ++ [])

/-- Witness for C5's amended statement on concrete sources. -/
theorem c5_witness :
    (3 : Nat) ≤ 0 + 3 ∧
    isFuelOut (genraLoop fetchEmptyPage vernNone ["eng"] 7 3 [] 3 ⟨0, 0, [], []⟩) = false ∧
    traverse_genra fetchEmptyPage vernNone ["eng"] 5 7 0 [] = .done ⟨0, 0, [], []⟩ :=
  ⟨by decide,
   c5_amended.2.2.2.2.1 fetchEmptyPage vernNone ["eng"] 7 3 []
     (fun gid off l hl hh hhead => by
        simp [fetchEmptyPage] at hl
        subst hl
        simp at hhead)
     3 ⟨0, 0, [], []⟩ (by decide),
   c5_amended.1 fetchEmptyPage vernNone ["eng"] 5 7 []⟩

/-- C5 counterexample: against the adversarial subgenus source the loop
    is still running after 40 iterations with the retrieved count stuck
    at 0 below the hinted total of 1, even though every expanded page
    was empty — it neither stopped nor progressed. -/
theorem c5_counterexample :
    isFuelOut (traverse_genra advFetch vernNone ["eng"] 40 0 1 []) = true ∧
    retrievedOf (traverse_genra advFetch vernNone ["eng"] 40 0 1 []) = 0 := ⟨rfl, rfl⟩

/-- C9: `execute_api_request` turns any transport failure into `None`,
    but `traverse_genra` immediately calls `.get('result')` on that
    `None`, raising `AttributeError` and aborting the run — a failed
    genus-children fetch (first conjunct) or a failed subgenus expansion
    fetch (second conjunct) is not treated as "no data". -/
theorem c9_transport_failure_raises :
    traverse_genra failFetch vernNone ["eng"] 5 42 3 []
      = .failed .attrError ⟨0, 0, [(42, 0)], []⟩ ∧
    traverse_genra failSubFetch vernNone ["eng"] 5 0 3 []
      = .failed .attrError ⟨0, 0, [(0, 0), (1, 0)], []⟩ := ⟨rfl, rfl⟩

/-- A heap of mutable Python dicts: a `path` reference is an index into
    the store, `path.copy()` allocates a fresh entry at the end. -/
abbrev Store := List SDict

def storeGet : Store → Nat → SDict
  | [], _ => []
  | d :: _, 0 => d
  | _ :: σ, r + 1 => storeGet σ r

def storeSet : Store → Nat → SDict → Store
  | [], _, _ => []
  | _ :: σ, 0, d => d :: σ
  | x :: σ, r + 1, d => x :: storeSet σ r d

theorem storeSet_length (σ : Store) (r : Nat) (d : SDict) :
    (storeSet σ r d).length = σ.length := by
  induction σ generalizing r with
  | nil => rfl
  | cons x xs ih =>
    cases r with
    | zero => rfl
    | succ r => simp [storeSet, ih r]

theorem storeGet_set_self (σ : Store) (r : Nat) (d : SDict) (h : r < σ.length) :
    storeGet (storeSet σ r d) r = d := by
  induction σ generalizing r with
  | nil => simp at h
  | cons x xs ih =>
    cases r with
    | zero => rfl
    | succ r => exact ih r (by simpa using h)

theorem storeGet_set_ne (σ : Store) (r q : Nat) (d : SDict) (h : q ≠ r) :
    storeGet (storeSet σ r d) q = storeGet σ q := by
  induction σ generalizing r q with
  | nil => rfl
  | cons x xs ih =>
    cases r with
    | zero =>
      cases q with
      | zero => exact absurd rfl h
      | succ q => rfl
    | succ r =>
      cases q with
      | zero => rfl
      | succ q => exact ih r q (fun hh => h (by rw [hh]))

theorem storeGet_append_lt (σ l : Store) (q : Nat) (h : q < σ.length) :
    storeGet (σ ++ l) q = storeGet σ q := by
  induction σ generalizing q with
  | nil => simp at h
  | cons x xs ih =>
    cases q with
    | zero => rfl
    | succ q => exact ih q (by simpa using h)

/-- A taxon object as consumed by `traverse_taxonomy`: `id`, `name`,
    `rank`, and the species-count hint `data["species"]` read at genus
    level.  Children come from the breakdown oracle. -/
structure BNode where
  id : Nat
  name : String
  rank : String
  species : Nat
  deriving DecidableEq, Repr

/-- api3.py `RANKS` (line 307); `RANK_INDEX` has exactly these keys. -/
def RANKS : List String :=
  ["domain", "kingdom", "phylum", "class", "order", "family", "genus", "species"]

/-- Result of a traversal (sub)run: the final store, the rows saved,
    and one receipt `(parent ref, dict contents handed over)` for every
    recursive child call made anywhere below. -/
inductive TRes where
  | ok (σ : Store) (saves : List (String × VDict)) (receipts : List (Nat × SDict))
  | failed (e : PyErr) (saves : List (String × VDict)) (receipts : List (Nat × SDict))
  deriving DecidableEq, Repr

/-- The child loop of api3.py `traverse_taxonomy` (lines 218-229):
    `sys.exit(0)` on a child whose rank is not in `RANK_INDEX` (the run
    aborts, nothing later is processed), skip children pruned by the
    rank filter, and recurse on the rest — each recursive call receives
    `path.copy()`, a freshly allocated copy of the parent's dict taken
    at call time.  `tt` is the traversal applied to each child. -/
def traverse_children (tt : BNode → Nat → Store → TRes) :
    List BNode → Nat → Store → TRes
  | [], _, σ => .ok σ [] []
  | c :: rest, r, σ =>
    if RANKS.contains c.rank then
      if isIncludedA3 c.rank c.name then
        match tt c σ.length (σ ++ [storeGet σ r]) with
        | .ok σ₂ s rec =>
          match traverse_children tt rest r σ₂ with
          | .ok σ₃ s₂ rec₂ => .ok σ₃ (s ++ s₂) ((r, storeGet σ r) :: rec ++ rec₂)
          | .failed e s₂ rec₂ => .failed e (s ++ s₂) ((r, storeGet σ r) :: rec ++ rec₂)
        | .failed e s rec => .failed e s ((r, storeGet σ r) :: rec)
      else traverse_children tt rest r σ
    else .failed .sysExit [] []

/-- api3.py `traverse_taxonomy` (lines 192-229) over the dict heap `σ`,
    where `r` is the reference of the `path` dict this call received.
    The node's own rank entry is written into that dict in place
    (line 203); at rank genus the chunked fetcher runs on the dict's
    current contents; otherwise the children returned by the breakdown
    oracle `bd` are traversed (`None` and `[]` both just end the
    branch).  The `RANK_INDEX[data["rank"]]` indentation lookup raises
    `KeyError` when the node's own rank is unrecognised. -/
def traverse_taxonomy (fetch : Fetch) (vern : Nat → Option (List VernEntry))
    (langs : List String) (bd : Nat → Option (List BNode)) :
    Nat → BNode → Nat → Store → TRes
  | 0, _, _, _ => .failed .fuelOut [] []
  | fuel + 1, n, r, σ =>
    if RANKS.contains n.rank then
      if n.rank = "genus" then
        match traverse_genra fetch vern langs fuel n.id n.species
            (storeGet (storeSet σ r (dinsert (storeGet σ r) n.rank n.name)) r) with
        | .done s => .ok (storeSet σ r (dinsert (storeGet σ r) n.rank n.name)) s.saves []
        | .failed e s => .failed e s.saves []
      else
        match bd n.id with
        | none => .ok (storeSet σ r (dinsert (storeGet σ r) n.rank n.name)) [] []
        | some cs =>
          traverse_children (traverse_taxonomy fetch vern langs bd fuel) cs r
            (storeSet σ r (dinsert (storeGet σ r) n.rank n.name))
    else .failed .keyError [] []

/-- Frame/isolation property of the child loop: assuming every
    recursive call mutates only its own dict and hands the stated copy
    to its children (hypothesis `H`), a successful child loop leaves
    every pre-existing dict — the parent's included — untouched, and
    every receipt for the parent ref `r` is exactly the parent dict's
    contents as they were when the loop started. -/
theorem traverse_children_iso (tt : BNode → Nat → Store → TRes)
    (H : ∀ c (r : Nat) (σ σ' : Store) s rec, r < σ.length → tt c r σ = .ok σ' s rec →
      σ.length ≤ σ'.length ∧
      (∀ q, q < σ.length → q ≠ r → storeGet σ' q = storeGet σ q) ∧
      storeGet σ' r = dinsert (storeGet σ r) c.rank c.name ∧
      (∀ pr ∈ rec, (pr.1 = r → pr.2 = dinsert (storeGet σ r) c.rank c.name) ∧
        (pr.1 ≠ r → σ.length ≤ pr.1))) :
    ∀ (cs : List BNode) (r : Nat) (σ σ' : Store) s rec, r < σ.length →
      traverse_children tt cs r σ = .ok σ' s rec →
      σ.length ≤ σ'.length ∧
      (∀ q, q < σ.length → storeGet σ' q = storeGet σ q) ∧
      (∀ pr ∈ rec, (pr.1 = r → pr.2 = storeGet σ r) ∧ (pr.1 ≠ r → σ.length ≤ pr.1)) := by
  intro cs
  induction cs with
  | nil =>
    intro r σ σ' s rec hr h
    unfold traverse_children at h
    injection h with h1 h2 h3
    subst h1
    subst h3
    exact ⟨Nat.le_refl _, fun q hq => rfl, by simp⟩
  | cons c rest ih =>
    intro r σ σ' s rec hr h
    unfold traverse_children at h
    by_cases hrank : RANKS.contains c.rank
    · rw [if_pos hrank] at h
      by_cases hincl : isIncludedA3 c.rank c.name
      · rw [if_pos hincl] at h
        cases hc : tt c σ.length (σ ++ [storeGet σ r]) with
        | failed e s0 rec0 => rw [hc] at h; simp at h
        | ok σ₂ s0 rec0 =>
          rw [hc] at h
          simp only [] at h
          cases hrest : traverse_children tt rest r σ₂ with
          | failed e s2 rec2 => rw [hrest] at h; simp at h
          | ok σ₃ s2 rec2 =>
            rw [hrest] at h
            simp only [] at h
            injection h with h1 h2 h3
            subst h1
            obtain ⟨hlen1, hframe1, hown1, hrec1⟩ :=
              H c σ.length (σ ++ [storeGet σ r]) σ₂ s0 rec0 (by simp) hc
            have hrlt2 : r < σ₂.length := by
              have : (σ ++ [storeGet σ r]).length = σ.length + 1 := by simp
              omega
            obtain ⟨hlen2, hframe2, hrec2⟩ := ih r σ₂ σ₃ s2 rec2 hrlt2 hrest
            have hframeA : ∀ q, q < σ.length → storeGet σ₂ q = storeGet σ q := by
              intro q hq
              rw [hframe1 q (by simp; omega) (by omega)]
              exact storeGet_append_lt σ _ q hq
            have hlenA : (σ ++ [storeGet σ r]).length = σ.length + 1 := by simp
            refine ⟨by omega, ?_, ?_⟩
            · intro q hq
              rw [hframe2 q (by omega), hframeA q hq]
            · intro pr hpr
              rw [← h3] at hpr
              rcases List.mem_cons.1 hpr with hpr | hpr
              · subst hpr
                exact ⟨fun _ => rfl, fun hh => absurd rfl hh⟩
              · rcases List.mem_append.1 hpr with hpr | hpr
                · obtain ⟨hr1, hr2⟩ := hrec1 pr hpr
                  by_cases hps : pr.1 = σ.length
                  · exact ⟨fun hh => absurd (hh ▸ hps) (by omega),
                           fun _ => by omega⟩
                  · have := hr2 hps
                    exact ⟨fun hh => absurd hh (by omega), fun _ => by omega⟩
                · obtain ⟨hr1, hr2⟩ := hrec2 pr hpr
                  refine ⟨fun hh => ?_, fun hh => ?_⟩
                  · rw [hr1 hh, hframeA r hr]
                  · have := hr2 hh
                    omega
      · rw [if_neg hincl] at h
        exact ih r σ σ' s rec hr h
    · rw [if_neg hrank] at h
      simp at h

/-- C3 (confirmed): in a successful traversal of a node, the node
    mutates only the dict it received (adding exactly its own rank
    entry); every other pre-existing dict — an ancestor's or an elder
    sibling's — keeps its contents, so nothing added inside one child's
    subtree is ever observable in a sibling's or the parent's lineage;
    and every direct child call (receipt with parent ref `r`) received
    exactly an independent copy of the parent's lineage extended with
    the parent's rank entry. -/
theorem c3_lineage_isolation (fetch : Fetch) (vern : Nat → Option (List VernEntry))
    (langs : List String) (bd : Nat → Option (List BNode)) :
    ∀ (fuel : Nat) (n : BNode) (r : Nat) (σ σ' : Store) s rec, r < σ.length →
      traverse_taxonomy fetch vern langs bd fuel n r σ = .ok σ' s rec →
      σ.length ≤ σ'.length ∧
      (∀ q, q < σ.length → q ≠ r → storeGet σ' q = storeGet σ q) ∧
      storeGet σ' r = dinsert (storeGet σ r) n.rank n.name ∧
      (∀ pr ∈ rec, (pr.1 = r → pr.2 = dinsert (storeGet σ r) n.rank n.name) ∧
        (pr.1 ≠ r → σ.length ≤ pr.1)) := by
  intro fuel
  induction fuel with
  | zero =>
    intro n r σ σ' s rec hr h
    simp [traverse_taxonomy] at h
  | succ fuel ih =>
    intro n r σ σ' s rec hr h
    unfold traverse_taxonomy at h
    by_cases hrank : RANKS.contains n.rank
    · rw [if_pos hrank] at h
      by_cases hgen : n.rank = "genus"
      · rw [if_pos hgen] at h
        cases hg : traverse_genra fetch vern langs fuel n.id n.species
            (storeGet (storeSet σ r (dinsert (storeGet σ r) n.rank n.name)) r) with
        | done sg =>
          rw [hg] at h
          simp only [] at h
          injection h with h1 h2 h3
          subst h1
          refine ⟨by rw [storeSet_length], ?_, storeGet_set_self σ r _ hr, ?_⟩
          · intro q hq hqr
            exact storeGet_set_ne σ r q _ hqr
          · rw [← h3]
            simp
        | failed e sg => rw [hg] at h; simp at h
      · rw [if_neg hgen] at h
        cases hb : bd n.id with
        | none =>
          rw [hb] at h
          simp only [] at h
          injection h with h1 h2 h3
          subst h1
          refine ⟨by rw [storeSet_length], ?_, storeGet_set_self σ r _ hr, ?_⟩
          · intro q hq hqr
            exact storeGet_set_ne σ r q _ hqr
          · rw [← h3]
            simp
        | some cs =>
          rw [hb] at h
          simp only [] at h
          have hr1 : r < (storeSet σ r (dinsert (storeGet σ r) n.rank n.name)).length := by
            rw [storeSet_length]; exact hr
          obtain ⟨hlen, hframe, hrec⟩ :=
            traverse_children_iso (traverse_taxonomy fetch vern langs bd fuel)
              (fun c rr σa σb sa reca hrr hcc => ih c rr σa σb sa reca hrr hcc)
              cs r _ σ' s rec hr1 h
          rw [storeSet_length] at hlen
          refine ⟨hlen, ?_, ?_, ?_⟩
          · intro q hq hqr
            rw [hframe q (by rw [storeSet_length]; exact hq)]
            exact storeGet_set_ne σ r q _ hqr
          · rw [hframe r hr1]
            exact storeGet_set_self σ r _ hr
          · intro pr hpr
            obtain ⟨hp1, hp2⟩ := hrec pr hpr
            refine ⟨fun hh => ?_, fun hh => ?_⟩
            · rw [hp1 hh]
              exact storeGet_set_self σ r _ hr
            · have := hp2 hh
              rw [storeSet_length] at this
              exact this
    · rw [if_neg hrank] at h
      simp at h

/-- Breakdown oracle for the C3 witness: the domain node 1 has a single
    kingdom child, every other taxon has no children. -/
def bdW : Nat → Option (List BNode) := fun i =>
  if i = 1 then some [⟨2, "Animalia", "kingdom", 0⟩] else some []

/-- Witness for C3 on a concrete domain → kingdom run. -/
theorem c3_witness :
    ((0 : Nat) < ([[]] : Store).length) ∧
    storeGet [[("domain", "Eukaryota")],
              [("domain", "Eukaryota"), ("kingdom", "Animalia")]] 0
      = dinsert (storeGet [[]] 0) "domain" "Eukaryota" ∧
    (∀ pr ∈ [((0 : Nat), [("domain", "Eukaryota")])],
      (pr.1 = 0 → pr.2 = dinsert (storeGet [[]] 0) "domain" "Eukaryota")) :=
  ⟨by decide,
   (c3_lineage_isolation failFetch vernNone ["eng"] bdW 3 ⟨1, "Eukaryota", "domain", 0⟩ 0 [[]]
      [[("domain", "Eukaryota")], [("domain", "Eukaryota"), ("kingdom", "Animalia")]] []
      [(0, [("domain", "Eukaryota")])] (by decide) rfl).2.2.1,
   fun pr hpr =>
     ((c3_lineage_isolation failFetch vernNone ["eng"] bdW 3 ⟨1, "Eukaryota", "domain", 0⟩ 0 [[]]
        [[("domain", "Eukaryota")], [("domain", "Eukaryota"), ("kingdom", "Animalia")]] []
        [(0, [("domain", "Eukaryota")])] (by decide) rfl).2.2.2 pr hpr).1⟩

/-- C8 (confirmed): once a child with an unrecognised rank is reached
    in the breakdown list, the whole run aborts (`sys.exit(0)`): the
    result is `sysExit`, carrying exactly the rows and receipts
    produced by the earlier siblings — the bad child is not skipped and
    the later siblings are never traversed. -/
theorem c8_unknown_rank_abort (tt : BNode → Nat → Store → TRes)
    (cs₁ : List BNode) (bad : BNode) (cs₂ : List BNode) (r : Nat) :
    ∀ (σ σ₁ : Store) (s : List (String × VDict)) (rec : List (Nat × SDict)),
      traverse_children tt cs₁ r σ = .ok σ₁ s rec →
      RANKS.contains bad.rank = false →
      traverse_children tt (cs₁ ++ bad :: cs₂) r σ = .failed .sysExit s rec := by
  induction cs₁ with
  | nil =>
    intro σ σ₁ s rec hok hbad
    unfold traverse_children at hok
    injection hok with h1 h2 h3
    subst h2
    subst h3
    show traverse_children tt (bad :: cs₂) r σ = .failed .sysExit [] []
    unfold traverse_children
    rw [if_neg (by rw [hbad]; exact Bool.false_ne_true)]
  | cons c rest ih =>
    intro σ σ₁ s rec hok hbad
    unfold traverse_children at hok
    show traverse_children tt (c :: (rest ++ bad :: cs₂)) r σ = .failed .sysExit s rec
    unfold traverse_children
    by_cases hrank : RANKS.contains c.rank
    · rw [if_pos hrank] at hok ⊢
      by_cases hincl : isIncludedA3 c.rank c.name
      · rw [if_pos hincl] at hok ⊢
        cases hc : tt c σ.length (σ ++ [storeGet σ r]) with
        | failed e s0 rec0 => rw [hc] at hok; simp at hok
        | ok σ₂ s0 rec0 =>
          rw [hc] at hok
          simp only [] at hok
          cases hrest : traverse_children tt rest r σ₂ with
          | failed e s2 rec2 => rw [hrest] at hok; simp at hok
          | ok σ₃ s2 rec2 =>
            rw [hrest] at hok
            simp only [] at hok
            injection hok with h1 h2 h3
            simp only []
            rw [ih σ₂ σ₃ s2 rec2 hrest hbad]
            simp only []
            rw [h2, h3]
      · rw [if_neg hincl] at hok ⊢
        exact ih σ σ₁ s rec hok hbad
    · rw [if_neg hrank] at hok
      simp at hok

/-- Witness for C8: with no elder siblings, a child of unknown rank
    `tribe` aborts immediately and its `class`-ranked sibling is never
    visited. -/
theorem c8_witness :
    traverse_children (traverse_taxonomy failFetch vernNone ["eng"] (fun _ => none) 3)
        [] 0 [[]] = .ok [[]] [] [] ∧
    traverse_children (traverse_taxonomy failFetch vernNone ["eng"] (fun _ => none) 3)
        ([] ++ (⟨9, "Weird", "tribe", 0⟩ : BNode) :: [⟨5, "Mammalia", "class", 0⟩]) 0 [[]]
      = .failed .sysExit [] [] :=
  ⟨rfl,
   c8_unknown_rank_abort (traverse_taxonomy failFetch vernNone ["eng"] (fun _ => none) 3)
     [] ⟨9, "Weird", "tribe", 0⟩ [⟨5, "Mammalia", "class", 0⟩] 0 [[]] [[]] [] []
     rfl (by decide)⟩
